import Mathlib

/-!
Shallow embedding of the core of `spotify-backup.py`, a script that exports
a Spotify library to local files.  The embedded components are:

* the Transport/Retry layer `SpotifyAPI.get` (URL construction, bounded
  retry loop, fatal exit on exhaustion, failure logging),
* the two pagination normalizers `SpotifyAPI.list` (offset style, follows
  the server-given `next` URL) and `SpotifyAPI.list1` (cursor style,
  re-requests the same URL with the cursor merged into the params),
* the local OAuth capture server (`do_GET` request handler, accept loop,
  `authorize`).

Python strings (URLs, request paths) are modelled as `List Char`, so that
every definition is executable and concrete instances can be settled by
`decide`.  I/O is abstracted by oracles: an `attempt` function gives the
outcome of each HTTP fetch attempt, and a `get` oracle gives the page
returned for a request.  Loops that are governed by server data are given
explicit fuel; the theorems supply enough fuel from their chain-length
hypotheses.
-/

namespace SpotifyBackup

/-- The fixed API base URL from the source:
`https://api.spotify.com/v1/`. -/
def apiBase : List Char := "https://api.spotify.com/v1/".toList

/-- URL construction at the top of `SpotifyAPI.get` (source lines 26-30):
prefix `apiBase` unless the URL already starts with it
(`url.startswith(...)`), then, when `params` is nonempty, append the
URL-encoded params joined with a `&` if the URL already contains a `?`
(Python `'?' in url`) and with a `?` otherwise.  The encoder
(`urllib.parse.urlencode`) is abstracted as the parameter `enc`. -/
def constructURL (enc : List (String × String) → List Char) (url : List Char)
    (params : List (String × String)) : List Char :=
  let u := if apiBase.isPrefixOf url then url else apiBase ++ url
  if params.isEmpty then u
  else u ++ (if u.contains '?' then ['&'] else ['?']) ++ enc params

/-- One line written by the `log` function during the retry loop.
`failure url err` models the line logging a failed load of `url` with the
exception text `err`; `retry` models the subsequent `Trying again...`
line. -/
inductive LogLine : Type
  | failure (url : List Char) (err : String)
  | retry
  deriving DecidableEq, Repr

/-- `failure` lines are the lines that log a failed attempt. -/
def isFailureLine : LogLine → Bool
  | .failure _ _ => true
  | .retry => false

/-- Outcome of `SpotifyAPI.get`: either a parsed JSON value is returned to
the caller, or the process terminates via `sys.exit` with the given code. -/
inductive GetResult (J : Type) : Type
  | success (v : J)
  | exit (code : Nat)
  deriving DecidableEq, Repr

/-- The retry loop of `SpotifyAPI.get` (source lines 33-44).  `attempt i`
is the outcome of the `i`-th HTTP fetch attempt of the constructed URL
(`urllib.request.urlopen` plus JSON parse): `.ok v` on success, `.error e`
when any exception with text `e` is raised.  The first `Nat` argument of
the recursion is the remaining number of loop iterations, the second the
index of the next attempt.  Each failed attempt logs a failure line and a
retry line; when the iterations are exhausted the process exits with
status 1. -/
def getLoop {J : Type} (attempt : Nat → Except String J) (u : List Char) :
    Nat → Nat → GetResult J × List LogLine
  | 0, _ => (.exit 1, [])
  | t + 1, i =>
    match attempt i with
    | .ok v => (.success v, [])
    | .error e =>
      let r := getLoop attempt u t (i + 1)
      (r.1, .failure u e :: .retry :: r.2)

/-- `SpotifyAPI.get(url, params, tries)` (source lines 25-44): construct
the request URL, then run the retry loop `for _ in range(tries)`.  A
non-positive `tries` yields zero iterations, matching Python `range`. -/
def SpotifyAPI.get {J : Type} (enc : List (String × String) → List Char)
    (attempt : Nat → Except String J) (url : List Char)
    (params : List (String × String)) (tries : Int) :
    GetResult J × List LogLine :=
  getLoop attempt (constructURL enc url params) tries.toNat 0

/-! ## Offset-style pagination: `SpotifyAPI.list` (source lines 49-55) -/

/-- One page of an offset-style response: a JSON object with an `items`
array and a `next` field that is either a URL string or null. -/
structure Page (α : Type) : Type where
  items : List α
  next : Option (List Char)
  deriving DecidableEq, Repr

/-- The `while response['next']:` loop of `SpotifyAPI.list`: while the
`next` field is truthy, fetch that URL via `fetchNext` (which models
`self.get(response['next'])`, i.e. a `get` with no added params) and
append its items.  `fuel` bounds the number of iterations; the theorems
always supply at least the chain length. -/
def listAux {α : Type} (fetchNext : List Char → Page α) :
    Nat → Page α → List α → List α
  | 0, _, items => items
  | fuel + 1, response, items =>
    match response.next with
    | none => items
    | some u =>
      if u.isEmpty then items
      else
        let r := fetchNext u
        listAux fetchNext fuel r (items ++ r.items)

/-- `SpotifyAPI.list(url, params)`: fetch the first page with the given
params, then drain the `next` chain.  The transport layer is abstracted
as the oracle `get`; follow-up pages pass the previous page's `next` URL
with an empty params list, exactly as `self.get(response['next'])`. -/
def SpotifyAPI.list {α : Type} (get : List Char → List (String × String) → Page α)
    (url : List Char) (params : List (String × String)) (fuel : Nat) : List α :=
  let response := get url params
  listAux (fun u => get u []) fuel response response.items

/-- A valid chain of follow-up pages after `p` under the single-URL fetch
oracle `get1`: `Chain get1 p rest` holds when repeatedly following truthy
(non-null, nonempty) `next` URLs from `p` visits exactly the pages of
`rest` and the last page's `next` is null. -/
inductive Chain {α : Type} (get1 : List Char → Page α) :
    Page α → List (Page α) → Prop
  | last {p : Page α} : p.next = none → Chain get1 p []
  | more {p : Page α} {u : List Char} {rest : List (Page α)} :
      p.next = some u → u.isEmpty = false →
      Chain get1 (get1 u) rest → Chain get1 p (get1 u :: rest)

/-- A two-page transport for the C1 witness: the start URL yields page
`⟨[1], some "p2"⟩` and the URL `p2` yields the final page `⟨[2], none⟩`. -/
def listChainGet : List Char → List (String × String) → Page Nat :=
  fun u _ => if u = "p2".toList then ⟨[2], none⟩ else ⟨[1], some "p2".toList⟩

/-- A two-page transport refuting C1 as stated: the first page's `next`
is the non-null but empty string, so the loop's truthiness test stops
after page one even though the claim's chain has two pages. -/
def listEmptyNextGet : List Char → List (String × String) → Page Nat :=
  fun u _ => if u = [] then ⟨[2], none⟩ else ⟨[1], some []⟩

/-! ## Cursor-style pagination: `SpotifyAPI.list1` (source lines 58-67) -/

/-- A Python dict with string keys, modelled by its lookup function. -/
def Dict (V : Type) : Type := String → Option V

/-- The Python dict merge `{**a, **b}`: a key present in `b` gets `b`'s
value, otherwise `a`'s value is used. -/
def pyMerge {V : Type} (a b : Dict V) : Dict V :=
  fun k =>
    match b k with
    | some v => some v
    | none => a k

/-- The params of each follow-up request in `list1` (source line 65):
`{**get_next(response), **params}`, the cursor dict merged under the
caller-supplied params. -/
def list1FollowupParams {ρ V : Type} (get_next : ρ → Dict V) (params : Dict V)
    (r : ρ) : Dict V :=
  pyMerge (get_next r) params

/-- The `while is_more_items(response):` loop of `list1`: while the
predicate holds, fetch the next response via `step` and append its
extracted items.  `fuel` bounds the number of iterations; the theorems
always supply at least the index of the first false response. -/
def list1Aux {ρ α : Type} (step : ρ → ρ) (get_items : ρ → List α)
    (is_more_items : ρ → Bool) : Nat → ρ → List α → List α
  | 0, _, items => items
  | fuel + 1, response, items =>
    if is_more_items response then
      list1Aux step get_items is_more_items fuel (step response)
        (items ++ get_items (step response))
    else items

/-- `SpotifyAPI.list1(url, params, get_items, is_more_items, get_next)`:
fetch the first response for `url` with `params`, then, while
`is_more_items` holds of the current response, re-request the *same* url
with the cursor dict `get_next(response)` merged under `params`, and
append `get_items` of each fetched response. -/
def SpotifyAPI.list1 {ρ α V : Type} (get : List Char → Dict V → ρ)
    (url : List Char) (params : Dict V) (get_items : ρ → List α)
    (is_more_items : ρ → Bool) (get_next : ρ → Dict V) (fuel : Nat) : List α :=
  let response := get url params
  list1Aux (fun r => get url (list1FollowupParams get_next params r))
    get_items is_more_items fuel response (get_items response)

/-- The sequence of responses `list1` visits: the first is fetched with
the caller's params, and each later one by re-requesting the same url
with the previous response's cursor merged under the params. -/
def list1Visited {ρ V : Type} (get : List Char → Dict V → ρ) (url : List Char)
    (params : Dict V) (get_next : ρ → Dict V) : Nat → ρ
  | 0 => get url params
  | n + 1 =>
      get url (list1FollowupParams get_next params
        (list1Visited get url params get_next n))

/-- A two-response cursor transport for the C2 witness: with no cursor in
the params it answers `([10], some 1)` (more data, cursor 1), and with a
cursor it answers `([20], none)` (no more data). -/
def cursorGet : List Char → Dict Nat → List Nat × Option Nat :=
  fun _ d =>
    match d "after" with
    | none => ([10], some 1)
    | some _ => ([20], none)

/-- The cursor dict of a response for the C2 witness: the singleton dict
`{after: cursor}` when the cursor is present. -/
def cursorNext : List Nat × Option Nat → Dict Nat :=
  fun r k => if k = "after" then r.2 else none

/-- The empty params dict. -/
def emptyDict : Dict Nat := fun _ => none

/-! ## Local authorization capture server (source lines 70-129)

The handler's `do_GET` inspects `self.path`; the accept loop
`while True: server.handle_request()` processes one request at a time.
`_AuthorizationServer.handle_error` re-raises, so the `_Authorization`
exception carrying the token unwinds the loop and is caught by
`authorize`, while any other exception (such as the `AttributeError` from
`re.search(...).group(1)` when the pattern is absent) propagates out as an
uncaught defect. -/

/-- The `/redirect` route prefix tested by `self.path.startswith`. -/
def redirectRoute : List Char := "/redirect".toList

/-- The `/token?` route prefix tested by `self.path.startswith`. -/
def tokenRoute : List Char := "/token?".toList

/-- The literal part of the regex `access_token=([^&]*)`. -/
def tokenPat : List Char := "access_token=".toList

/-- The capture group `([^&]*)`: the longest run of characters other than
`&` from the current position. -/
def takeTokenChars : List Char → List Char
  | [] => []
  | c :: cs => if c = '&' then [] else c :: takeTokenChars cs

/-- `re.search` for the pattern `pat ++ ([^&]*)`: scan left to right for
the first occurrence of `pat` and return the capture group after it,
`none` when `pat` does not occur. -/
def findSub (pat : List Char) : List Char → Option (List Char)
  | [] => none
  | c :: cs =>
    if pat.isPrefixOf (c :: cs) then
      some (takeTokenChars ((c :: cs).drop pat.length))
    else findSub pat cs

/-- `re.search('access_token=([^&]*)', path).group(1)`, with `none` for
the no-match case (in which Python raises an `AttributeError` on
`.group`). -/
def findToken (path : List Char) : Option (List Char) :=
  findSub tokenPat path

/-- What a single `do_GET` call does besides writing the response body:
continue the loop, raise the `_Authorization` completion signal carrying
the captured token, or raise a genuine error (an uncaught defect). -/
inductive HandlerOutcome : Type
  | contin
  | authRaise (token : List Char)
  | defect
  deriving DecidableEq, Repr

/-- The request handler `_AuthorizationHandler.do_GET` (source lines
103-121), returning the HTTP status it sends and the control-flow
outcome.  On `/token?...` the 200 response is written before the regex
runs, so a missing pattern yields a defect after the 200. -/
def do_GET (path : List Char) : Nat × HandlerOutcome :=
  if redirectRoute.isPrefixOf path then (200, .contin)
  else if tokenRoute.isPrefixOf path then
    match findToken path with
    | some t => (200, .authRaise t)
    | none => (200, .defect)
  else (404, .contin)

/-- How the accept loop of `authorize` ends: the `_Authorization` signal
is caught and yields the client, a genuine error propagates as a defect,
or the request stream is exhausted and the loop blocks on `accept`. -/
inductive LoopExit : Type
  | client (token : List Char)
  | defect
  | blocked
  deriving DecidableEq, Repr

/-- The accept loop `while True: server.handle_request()` over an incoming
stream of request paths, returning how the loop ends together with the
number of requests processed. -/
def serverLoop : List (List Char) → LoopExit × Nat
  | [] => (.blocked, 0)
  | p :: rest =>
    match (do_GET p).2 with
    | .authRaise t => (.client t, 1)
    | .defect => (.defect, 1)
    | .contin =>
      let r := serverLoop rest
      (r.1, r.2 + 1)

/-- The client facade: a `SpotifyAPI` instance binds one access token. -/
structure SpotifyAPI : Type where
  auth : List Char
  deriving DecidableEq, Repr

/-- `SpotifyAPI.authorize` (source lines 70-86) applied to the stream of
requests the local server receives: when the loop ends with the
`_Authorization` signal, the captured token becomes the client's auth;
a defect or a forever-blocking loop yields no client. -/
def SpotifyAPI.authorize (requests : List (List Char)) : Option SpotifyAPI :=
  match (serverLoop requests).1 with
  | .client t => some ⟨t⟩
  | _ => none

/-! ## Theorems -/

/-- The retry loop returns the first successful value once `k` leading
failures are followed by a success within the iteration budget, and the
log holds exactly `k` failure lines (each followed by a retry line). -/
theorem getLoop_spec {J : Type} (attempt : Nat → Except String J)
    (u : List Char) (v : J) :
    ∀ (k t i : Nat), k < t →
      (∀ j, j < k → ∃ e, attempt (i + j) = .error e) →
      attempt (i + k) = .ok v →
      (getLoop attempt u t i).1 = .success v ∧
      ((getLoop attempt u t i).2.countP isFailureLine) = k := by
  intro k
  induction k with
  | zero =>
    intro t i ht _ hok
    obtain ⟨t', rfl⟩ : ∃ t', t = t' + 1 := ⟨t - 1, by omega⟩
    simp only [Nat.add_zero] at hok
    simp [getLoop, hok]
  | succ k ih =>
    intro t i ht hfail hok
    obtain ⟨t', rfl⟩ : ∃ t', t = t' + 1 := ⟨t - 1, by omega⟩
    obtain ⟨e₀, he₀⟩ := hfail 0 (Nat.succ_pos k)
    simp only [Nat.add_zero] at he₀
    have hk : k < t' := by omega
    have hfail' : ∀ j, j < k → ∃ e, attempt (i + 1 + j) = .error e := by
      intro j hj
      have := hfail (j + 1) (by omega)
      simpa [Nat.add_assoc, Nat.add_comm 1 j] using this
    have hok' : attempt (i + 1 + k) = .ok v := by
      have : i + 1 + k = i + (k + 1) := by omega
      rw [this]; exact hok
    obtain ⟨h1, h2⟩ := ih t' (i + 1) hk hfail' hok'
    refine ⟨?_, ?_⟩
    · simp [getLoop, he₀, h1]
    · simp [getLoop, he₀, List.countP_cons, isFailureLine, h2]

/-- If every attempt within the budget fails, the loop falls through and
the process exits with status 1. -/
theorem getLoop_exhaust {J : Type} (attempt : Nat → Except String J)
    (u : List Char) :
    ∀ (t i : Nat), (∀ j, j < t → ∃ e, attempt (i + j) = .error e) →
      (getLoop attempt u t i).1 = .exit 1 := by
  intro t
  induction t with
  | zero => intro i _; simp [getLoop]
  | succ t ih =>
    intro i hfail
    obtain ⟨e₀, he₀⟩ := hfail 0 (Nat.succ_pos t)
    simp only [Nat.add_zero] at he₀
    have hfail' : ∀ j, j < t → ∃ e, attempt (i + 1 + j) = .error e := by
      intro j hj
      have := hfail (j + 1) (by omega)
      simpa [Nat.add_assoc, Nat.add_comm 1 j] using this
    simp [getLoop, he₀, ih (i + 1) hfail']

/-- C3: if the HTTP fetch raises an exception on the first `k` attempts
(`k < tries`) and succeeds on attempt `k + 1`, then `get` returns the
successfully parsed JSON value and the log records exactly `k` failure
lines. -/
theorem get_retry_recovers {J : Type} (enc : List (String × String) → List Char)
    (attempt : Nat → Except String J) (url : List Char)
    (params : List (String × String)) (tries : Int) (k : Nat) (v : J)
    (hk : (k : Int) < tries)
    (hfail : ∀ j, j < k → ∃ e, attempt j = .error e)
    (hok : attempt k = .ok v) :
    (SpotifyAPI.get enc attempt url params tries).1 = .success v ∧
    ((SpotifyAPI.get enc attempt url params tries).2.countP isFailureLine) = k := by
  have hk' : k < tries.toNat := by omega
  have hfail' : ∀ j, j < k → ∃ e, attempt (0 + j) = .error e := by
    simpa using hfail
  have hok' : attempt (0 + k) = .ok v := by simpa using hok
  exact getLoop_spec attempt _ v k tries.toNat 0 hk' hfail' hok'

/-- Witness for C3 at a concrete input: one failure, then success. -/
theorem get_retry_recovers_witness :
    (SpotifyAPI.get (fun _ => []) (fun i => if i = 0 then .error "boom" else .ok 7)
      "me".toList [] 3).1 = .success 7 ∧
    ((SpotifyAPI.get (fun _ => []) (fun i => if i = 0 then .error "boom" else .ok 7)
      "me".toList [] 3).2.countP isFailureLine) = 1 :=
  get_retry_recovers (fun _ => []) (fun i => if i = 0 then .error "boom" else .ok 7)
    "me".toList [] 3 1 7 (by decide)
    (by
      intro j hj
      have hj0 : j = 0 := by omega
      subst hj0
      exact ⟨"boom", rfl⟩)
    (by simp)

/-- C4: if the fetch raises on all attempts within the budget, `get` never
returns a value and never raises to its caller: it exits the process with
the non-zero status 1. -/
theorem get_exhaustion_exits {J : Type} (enc : List (String × String) → List Char)
    (attempt : Nat → Except String J) (url : List Char)
    (params : List (String × String)) (tries : Int)
    (hfail : ∀ j : Nat, (j : Int) < tries → ∃ e, attempt j = .error e) :
    (SpotifyAPI.get enc attempt url params tries).1 = .exit 1 := by
  refine getLoop_exhaust attempt _ tries.toNat 0 ?_
  intro j hj
  have := hfail j (by omega)
  simpa using this

/-- Witness for C4: every attempt fails, `get` exits with status 1. -/
theorem get_exhaustion_exits_witness :
    (SpotifyAPI.get (fun _ => []) (fun _ => (.error "down" : Except String Nat))
      "me".toList [] 3).1 = .exit 1 :=
  get_exhaustion_exits (fun _ => []) (fun _ => .error "down") "me".toList [] 3
    (fun _ _ => ⟨"down", rfl⟩)

/-- C9: with a non-positive retry budget the loop body never runs: `get`
exits with status 1 immediately, independently of the fetch oracle, with
an empty log (no failure line, no value, no exception). -/
theorem get_nonpositive_tries {J : Type} (enc : List (String × String) → List Char)
    (attempt : Nat → Except String J) (url : List Char)
    (params : List (String × String)) (tries : Int) (h : tries ≤ 0) :
    SpotifyAPI.get enc attempt url params tries = (.exit 1, []) := by
  have h0 : tries.toNat = 0 := by omega
  simp [SpotifyAPI.get, h0, getLoop]

/-- Witness for C9 at `tries = 0` with an always-succeeding oracle. -/
theorem get_nonpositive_tries_witness :
    SpotifyAPI.get (fun _ => []) (fun _ => (.ok 5 : Except String Nat))
      "me".toList [] 0 = (.exit 1, []) :=
  get_nonpositive_tries (fun _ => []) (fun _ => .ok 5) "me".toList [] 0 (by decide)

/-- C5: the request URL is the input prefixed with the API base unless it
already carries that prefix, and when `params` is nonempty the encoded
params are appended, joined with `&` when the (prefixed) URL already
contains a `?` and with `?` otherwise. -/
theorem get_url_construction (enc : List (String × String) → List Char)
    (url : List Char) (params : List (String × String)) :
    (apiBase.isPrefixOf url = true → params ≠ [] →
      constructURL enc url params =
        url ++ (if url.contains '?' then ['&'] else ['?']) ++ enc params) ∧
    (apiBase.isPrefixOf url = false → params ≠ [] →
      constructURL enc url params =
        (apiBase ++ url) ++ (if (apiBase ++ url).contains '?' then ['&'] else ['?'])
          ++ enc params) ∧
    (params = [] →
      constructURL enc url params =
        if apiBase.isPrefixOf url then url else apiBase ++ url) := by
  refine ⟨?_, ?_, ?_⟩
  · intro hs hp
    simp [constructURL, hs, List.isEmpty_eq_true, hp]
  · intro hs hp
    simp [constructURL, hs, List.isEmpty_eq_true, hp]
  · intro hp
    subst hp
    simp [constructURL]

/-- Witness for C5 at concrete inputs covering all three conjuncts. -/
theorem get_url_construction_witness :
    constructURL (fun _ => "limit=50".toList) "https://api.spotify.com/v1/me/albums".toList
        [("limit", "50")] = "https://api.spotify.com/v1/me/albums?limit=50".toList ∧
    constructURL (fun _ => "limit=50".toList) "me/albums".toList [("limit", "50")] =
      "https://api.spotify.com/v1/me/albums?limit=50".toList ∧
    constructURL (fun _ => []) "me".toList [] = "https://api.spotify.com/v1/me".toList := by
  refine ⟨?_, ?_, ?_⟩
  · have h := (get_url_construction (fun _ => "limit=50".toList)
      "https://api.spotify.com/v1/me/albums".toList [("limit", "50")]).1
      (by decide) (by decide)
    rw [h]; decide
  · have h := (get_url_construction (fun _ => "limit=50".toList)
      "me/albums".toList [("limit", "50")]).2.1 (by decide) (by decide)
    rw [h]; decide
  · have h := (get_url_construction (fun _ => ([] : List Char))
      "me".toList []).2.2 rfl
    rw [h]; decide

/-- Draining a valid chain appends exactly the items of the chain's pages
to the accumulator. -/
theorem listAux_chain {α : Type} (get1 : List Char → Page α) :
    ∀ (rest : List (Page α)) (p : Page α) (acc : List α) (fuel : Nat),
      Chain get1 p rest → rest.length ≤ fuel →
      listAux get1 fuel p acc = acc ++ (rest.map Page.items).flatten := by
  intro rest
  induction rest with
  | nil =>
    intro p acc fuel hc _
    cases hc with
    | last hnone =>
      cases fuel with
      | zero => simp [listAux]
      | succ f => simp [listAux, hnone]
  | cons q rest ih =>
    intro p acc fuel hc hfuel
    cases hc with
    | more hnext hne hchain =>
      obtain ⟨f, rfl⟩ : ∃ f, fuel = f + 1 :=
        ⟨fuel - 1, by simp at hfuel; omega⟩
      have hf : rest.length ≤ f := by simp at hfuel; omega
      simp only [listAux, hnext, hne]
      rw [ih _ _ f hchain hf]
      simp

/-- C1 (amended): for every valid chain whose non-final pages carry a
truthy (non-null, nonempty) `next` URL and whose final page has a null
`next`, `list` returns the concatenation of the pages' items in page
order, each follow-up page fetched from the previous `next` URL with no
added params; hence its length is the sum of the page item counts. -/
theorem list_drains_chain {α : Type}
    (get : List Char → List (String × String) → Page α)
    (url : List Char) (params : List (String × String))
    (rest : List (Page α)) (fuel : Nat)
    (hchain : Chain (fun u => get u []) (get url params) rest)
    (hfuel : rest.length ≤ fuel) :
    SpotifyAPI.list get url params fuel =
      ((get url params :: rest).map Page.items).flatten ∧
    (SpotifyAPI.list get url params fuel).length =
      ((get url params :: rest).map (fun p => p.items.length)).sum := by
  have h := listAux_chain (fun u => get u []) rest (get url params)
    (get url params).items fuel hchain hfuel
  constructor
  · simpa [SpotifyAPI.list] using h
  · have h' : SpotifyAPI.list get url params fuel =
        ((get url params :: rest).map Page.items).flatten := by
      simpa [SpotifyAPI.list] using h
    rw [h']
    simp [Function.comp_def]

/-- Witness for C1 (amended) on the two-page chain of `listChainGet`. -/
theorem list_drains_chain_witness :
    SpotifyAPI.list listChainGet "start".toList [] 1 = [1, 2] ∧
    (SpotifyAPI.list listChainGet "start".toList [] 1).length = 2 := by
  have h := list_drains_chain listChainGet "start".toList []
    [⟨[2], none⟩] 1
    (by
      have hc : Chain (fun u => listChainGet u [])
          (listChainGet "start".toList [])
          ((fun u => listChainGet u []) "p2".toList :: []) :=
        Chain.more (by decide) (by decide) (Chain.last (by decide))
      exact hc)
    (by decide)
  exact ⟨by rw [h.1]; decide, by rw [h.2]; decide⟩

/-- Counterexample to C1 as stated: a two-page chain whose first page has
the non-null `next` value `""` (empty string) and whose second page has a
null `next`, with the second page reachable by fetching that `next` URL
with no params; `list` returns only the first page's items, not the
concatenation of both pages' items. -/
theorem list_c1_counterexample :
    (listEmptyNextGet "start".toList []).next ≠ none ∧
    (listEmptyNextGet [] []).next = none ∧
    SpotifyAPI.list listEmptyNextGet "start".toList [] 5 = [1] ∧
    SpotifyAPI.list listEmptyNextGet "start".toList [] 5 ≠
      ((listEmptyNextGet "start".toList [] ::
        [listEmptyNextGet [] []]).map Page.items).flatten := by
  refine ⟨by decide, by decide, by decide, by decide⟩

/-- The visited sequence is the iterate of the follow-up step. -/
theorem list1Visited_eq_iterate {ρ V : Type} (get : List Char → Dict V → ρ)
    (url : List Char) (params : Dict V) (get_next : ρ → Dict V) (n : Nat) :
    list1Visited get url params get_next n =
      (fun r => get url (list1FollowupParams get_next params r))^[n]
        (get url params) := by
  induction n with
  | zero => simp [list1Visited]
  | succ n ih =>
    rw [Function.iterate_succ_apply', ← ih]
    simp [list1Visited]

/-- Draining the cursor loop: if the predicate first fails at the `n`-th
iterate, the loop runs exactly `n` times and appends the items of the
responses visited after the first. -/
theorem list1Aux_spec {ρ α : Type} (step : ρ → ρ) (get_items : ρ → List α)
    (is_more_items : ρ → Bool) :
    ∀ (n fuel : Nat) (resp : ρ) (acc : List α),
      (∀ i, i < n → is_more_items (step^[i] resp) = true) →
      is_more_items (step^[n] resp) = false →
      n ≤ fuel →
      list1Aux step get_items is_more_items fuel resp acc =
        acc ++ ((List.range n).map
          (fun i => get_items (step^[i + 1] resp))).flatten := by
  intro n
  induction n with
  | zero =>
    intro fuel resp acc _ hfalse _
    simp only [Function.iterate_zero, id_eq] at hfalse
    cases fuel with
    | zero => simp [list1Aux]
    | succ f => simp [list1Aux, hfalse]
  | succ n ih =>
    intro fuel resp acc hbefore hfalse hfuel
    obtain ⟨f, rfl⟩ : ∃ f, fuel = f + 1 := ⟨fuel - 1, by omega⟩
    have h0 : is_more_items resp = true := by
      simpa using hbefore 0 (Nat.succ_pos n)
    have hb' : ∀ i, i < n → is_more_items (step^[i] (step resp)) = true := by
      intro i hi
      have := hbefore (i + 1) (by omega)
      simpa [Function.iterate_succ_apply] using this
    have hf' : is_more_items (step^[n] (step resp)) = false := by
      simpa [Function.iterate_succ_apply] using hfalse
    simp only [list1Aux, h0, if_true]
    rw [ih f (step resp) (acc ++ get_items (step resp)) hb' hf' (by omega)]
    have hfun : (fun i => get_items (step^[i + 1] (step resp))) =
        (fun i => get_items (step^[i + 1 + 1] resp)) := by
      funext i
      exact congrArg get_items (Function.iterate_succ_apply step (i + 1) resp).symm
    rw [hfun]
    simp [List.range_succ_eq_map, List.map_map, Function.comp_def,
      Nat.succ_eq_add_one, Nat.add_comm 1]

/-- C2: `list1` terminates exactly at the first visited response for which
the caller-supplied predicate is false and returns the concatenation, in
visit order, of `get_items` of every visited response including the final
one; each follow-up request re-requests the same url with the cursor
merged under the original params. -/
theorem list1_stops_at_first_false {ρ α V : Type}
    (get : List Char → Dict V → ρ) (url : List Char) (params : Dict V)
    (get_items : ρ → List α) (is_more_items : ρ → Bool)
    (get_next : ρ → Dict V) (n fuel : Nat)
    (hbefore : ∀ i, i < n →
      is_more_items (list1Visited get url params get_next i) = true)
    (hn : is_more_items (list1Visited get url params get_next n) = false)
    (hfuel : n ≤ fuel) :
    SpotifyAPI.list1 get url params get_items is_more_items get_next fuel =
      ((List.range (n + 1)).map
        (fun i => get_items (list1Visited get url params get_next i))).flatten ∧
    (∀ i, list1Visited get url params get_next (i + 1) =
      get url (list1FollowupParams get_next params
        (list1Visited get url params get_next i))) := by
  constructor
  · have hb' : ∀ i, i < n →
        is_more_items ((fun r => get url (list1FollowupParams get_next params r))^[i]
          (get url params)) = true := by
      intro i hi
      rw [← list1Visited_eq_iterate]
      exact hbefore i hi
    have hn' : is_more_items
        ((fun r => get url (list1FollowupParams get_next params r))^[n]
          (get url params)) = false := by
      rw [← list1Visited_eq_iterate]
      exact hn
    have h := list1Aux_spec (fun r => get url (list1FollowupParams get_next params r))
      get_items is_more_items n fuel (get url params) (get_items (get url params))
      hb' hn' hfuel
    have hrw : SpotifyAPI.list1 get url params get_items is_more_items get_next fuel =
        get_items (get url params) ++ ((List.range n).map
          (fun i => get_items
            ((fun r => get url (list1FollowupParams get_next params r))^[i + 1]
              (get url params)))).flatten := by
      simpa [SpotifyAPI.list1] using h
    rw [hrw]
    have hv : (fun i => get_items (list1Visited get url params get_next i)) =
        (fun i => get_items
          ((fun r => get url (list1FollowupParams get_next params r))^[i]
            (get url params))) := by
      funext i
      rw [list1Visited_eq_iterate]
    rw [hv]
    simp [List.range_succ_eq_map, List.map_map, Function.comp_def,
      Nat.succ_eq_add_one, Nat.add_comm 1]
  · intro i
    simp [list1Visited]

/-- Witness for C2 on the two-response transport `cursorGet`: the loop
stops at the second response (the first with no cursor) and returns the
items of both responses in visit order. -/
theorem list1_stops_at_first_false_witness :
    SpotifyAPI.list1 cursorGet "me/following".toList emptyDict Prod.fst
      (fun r => r.2.isSome) cursorNext 1 = [10, 20] := by
  have h := (list1_stops_at_first_false cursorGet "me/following".toList emptyDict
    Prod.fst (fun r => r.2.isSome) cursorNext 1 1
    (by
      intro i hi
      have hi0 : i = 0 := by omega
      subst hi0
      decide)
    (by decide)
    (by decide)).1
  rw [h]
  decide

/-- C10: in the follow-up params `{**get_next(response), **params}` of
`list1`, a key present in the caller's params keeps the caller's value
(the cursor's value for that key is discarded), and the cursor contributes
exactly the keys absent from the params. -/
theorem list1_params_precedence {ρ V : Type} (get_next : ρ → Dict V)
    (params : Dict V) (r : ρ) (k : String) :
    (∀ v, params k = some v → list1FollowupParams get_next params r k = some v) ∧
    (params k = none → list1FollowupParams get_next params r k = get_next r k) := by
  constructor
  · intro v hv
    simp [list1FollowupParams, pyMerge, hv]
  · intro hnone
    simp [list1FollowupParams, pyMerge, hnone]

/-- Witness for C10: with params `{after: 5}` and cursor `{after: 1}`, the
merged dict keeps the caller's value 5; with empty params it takes the
cursor's value 1. -/
theorem list1_params_precedence_witness :
    list1FollowupParams cursorNext (fun k => if k = "after" then some 5 else none)
      ([10], some 1) "after" = some 5 ∧
    list1FollowupParams cursorNext emptyDict ([10], some 1) "after" = some 1 := by
  constructor
  · exact (list1_params_precedence cursorNext
      (fun k => if k = "after" then some 5 else none) ([10], some 1) "after").1
      5 (by decide)
  · have h := (list1_params_precedence cursorNext emptyDict
      ([10], some 1) "after").2 (by decide)
    rw [h]
    decide

/-- A list is a prefix of itself followed by anything. -/
theorem isPrefixOf_append_self (pat t : List Char) :
    pat.isPrefixOf (pat ++ t) = true := by
  induction pat with
  | nil => simp [List.isPrefixOf]
  | cons p ps ih => simp [List.isPrefixOf, ih]

/-- A successful prefix test splits the list. -/
theorem exists_of_isPrefixOf :
    ∀ {pat l : List Char}, pat.isPrefixOf l = true → ∃ t, l = pat ++ t := by
  intro pat
  induction pat with
  | nil => intro l _; exact ⟨l, rfl⟩
  | cons p ps ih =>
    intro l h
    cases l with
    | nil => simp [List.isPrefixOf] at h
    | cons c cs =>
      simp only [List.isPrefixOf, Bool.and_eq_true, beq_iff_eq] at h
      obtain ⟨rfl, h2⟩ := h
      obtain ⟨t, rfl⟩ := ih h2
      exact ⟨t, rfl⟩

/-- A path on the `/token?` route is not on the `/redirect` route. -/
theorem redirect_not_on_token (path : List Char)
    (h : tokenRoute.isPrefixOf path = true) :
    redirectRoute.isPrefixOf path = false := by
  obtain ⟨t, rfl⟩ := exists_of_isPrefixOf h
  rfl

/-- The capture group stops at the first `&` (or at the end): a run with
no `&` followed by nothing or by `&`-rest is captured whole. -/
theorem takeTokenChars_spec (T b : List Char) (hT : '&' ∉ T)
    (hb : b = [] ∨ ∃ b', b = '&' :: b') :
    takeTokenChars (T ++ b) = T := by
  induction T with
  | nil =>
    rcases hb with rfl | ⟨b', rfl⟩
    · rfl
    · simp [takeTokenChars]
  | cons c T ih =>
    have hc : c ≠ '&' := by
      intro hcontra
      exact hT (hcontra ▸ List.mem_cons_self c T)
    have hT' : '&' ∉ T := fun hm => hT (List.mem_cons_of_mem c hm)
    simp [takeTokenChars, hc, ih hT']

/-- The scan finds the occurrence of `pat` at position `pre.length` when
no occurrence starts earlier. -/
theorem findSub_eq_of_first (pat : List Char) (hne : pat ≠ []) :
    ∀ (pre rest : List Char),
      (∀ i, i < pre.length →
        pat.isPrefixOf ((pre ++ (pat ++ rest)).drop i) = false) →
      findSub pat (pre ++ (pat ++ rest)) = some (takeTokenChars rest) := by
  intro pre
  induction pre with
  | nil =>
    intro rest _
    cases pat with
    | nil => exact absurd rfl hne
    | cons p ps =>
      have hpre : (p :: ps).isPrefixOf ((p :: ps) ++ rest) = true :=
        isPrefixOf_append_self (p :: ps) rest
      have hdrop : ((p :: ps) ++ rest).drop (p :: ps).length = rest :=
        List.drop_left (p :: ps) rest
      simp only [List.nil_append]
      rw [List.cons_append] at hpre hdrop ⊢
      simp only [findSub, hpre, if_true, hdrop]
  | cons c pre ih =>
    intro rest h
    have h0 : pat.isPrefixOf (c :: (pre ++ (pat ++ rest))) = false := by
      have := h 0 (by simp)
      simpa using this
    have h' : ∀ i, i < pre.length →
        pat.isPrefixOf ((pre ++ (pat ++ rest)).drop i) = false := by
      intro i hi
      have := h (i + 1) (by simp; omega)
      simpa using this
    rw [List.cons_append]
    simp only [findSub, h0]
    simp only [Bool.false_eq_true, if_false]
    exact ih rest h'

/-- When `pat` occurs nowhere, the scan returns `none`. -/
theorem findSub_eq_none (pat : List Char) :
    ∀ l : List Char,
      (∀ i, i < l.length → pat.isPrefixOf (l.drop i) = false) →
      findSub pat l = none := by
  intro l
  induction l with
  | nil => intro _; rfl
  | cons c cs ih =>
    intro h
    have h0 : pat.isPrefixOf (c :: cs) = false := by
      have := h 0 (by simp)
      simpa using this
    have h' : ∀ i, i < cs.length → pat.isPrefixOf (cs.drop i) = false := by
      intro i hi
      have := h (i + 1) (by simp; omega)
      simpa using this
    simp only [findSub, h0]
    simp only [Bool.false_eq_true, if_false]
    exact ih h'

/-- C6: a request whose path is on neither the `/redirect` route nor the
`/token?` route gets a 404 response and the accept loop continues with
the remaining requests (the server is not terminated). -/
theorem unknown_path_404 (path : List Char) (rest : List (List Char))
    (h1 : redirectRoute.isPrefixOf path = false)
    (h2 : tokenRoute.isPrefixOf path = false) :
    do_GET path = (404, .contin) ∧
    serverLoop (path :: rest) = ((serverLoop rest).1, (serverLoop rest).2 + 1) := by
  have hd : do_GET path = (404, .contin) := by
    simp [do_GET, h1, h2]
  exact ⟨hd, by simp [serverLoop, hd]⟩

/-- Witness for C6: `/unknown` gets a 404 and the loop keeps accepting. -/
theorem unknown_path_404_witness :
    do_GET "/unknown".toList = (404, .contin) ∧
    serverLoop ["/unknown".toList] = (.blocked, 1) := by
  have h := unknown_path_404 "/unknown".toList [] (by decide) (by decide)
  refine ⟨h.1, ?_⟩
  rw [h.2]
  decide

/-- C7: a `/token?` request whose path splits as
`pre ++ "access_token=" ++ T ++ b`, with the pattern occurring nowhere
earlier, `T` free of `&` and `b` empty or starting with `&`, is answered
with 200 and raises the completion signal carrying exactly `T`; the
accept loop then ends with token `T` having processed only this one
request (whatever requests follow), and `authorize` returns a client
facade bound to `T`. -/
theorem token_capture (path pre T b : List Char) (rest : List (List Char))
    (hroute : tokenRoute.isPrefixOf path = true)
    (hsplit : path = pre ++ (tokenPat ++ (T ++ b)))
    (hfirst : ∀ i, i < pre.length →
      tokenPat.isPrefixOf (path.drop i) = false)
    (hT : '&' ∉ T)
    (hb : b = [] ∨ ∃ b', b = '&' :: b') :
    do_GET path = (200, .authRaise T) ∧
    serverLoop (path :: rest) = (.client T, 1) ∧
    SpotifyAPI.authorize (path :: rest) = some ⟨T⟩ := by
  have hred : redirectRoute.isPrefixOf path = false :=
    redirect_not_on_token path hroute
  have hfind : findToken path = some T := by
    have h1 : findSub tokenPat (pre ++ (tokenPat ++ (T ++ b))) =
        some (takeTokenChars (T ++ b)) := by
      refine findSub_eq_of_first tokenPat (by decide) pre (T ++ b) ?_
      intro i hi
      have := hfirst i hi
      rw [hsplit] at this
      exact this
    rw [findToken, hsplit, h1, takeTokenChars_spec T b hT hb]
  have hd : do_GET path = (200, .authRaise T) := by
    simp [do_GET, hred, hroute, hfind]
  have hs : serverLoop (path :: rest) = (.client T, 1) := by
    simp [serverLoop, hd]
  exact ⟨hd, hs, by simp [SpotifyAPI.authorize, hs]⟩

/-- Witness for C7: `/token?access_token=ABC123` captures `ABC123`. -/
theorem token_capture_witness :
    do_GET "/token?access_token=ABC123".toList =
      (200, .authRaise "ABC123".toList) ∧
    serverLoop ["/token?access_token=ABC123".toList, "/ignored".toList] =
      (.client "ABC123".toList, 1) ∧
    SpotifyAPI.authorize ["/token?access_token=ABC123".toList, "/ignored".toList] =
      some ⟨"ABC123".toList⟩ :=
  token_capture "/token?access_token=ABC123".toList "/token?".toList
    "ABC123".toList [] ["/ignored".toList]
    (by decide) (by decide)
    (by decide)
    (by decide) (Or.inl rfl)

/-- C8: a `/token?` request whose path contains no occurrence of the
pattern `access_token=` does not produce the completion signal: the
handler raises a genuine error, the accept loop ends as a defect (not
suppressed, not converted into a captured token), and `authorize` yields
no client. -/
theorem malformed_token_defect (path : List Char) (rest : List (List Char))
    (hroute : tokenRoute.isPrefixOf path = true)
    (hno : ∀ i, i < path.length →
      tokenPat.isPrefixOf (path.drop i) = false) :
    (do_GET path).2 = .defect ∧
    (∀ t, (do_GET path).2 ≠ .authRaise t) ∧
    serverLoop (path :: rest) = (.defect, 1) ∧
    SpotifyAPI.authorize (path :: rest) = none := by
  have hred : redirectRoute.isPrefixOf path = false :=
    redirect_not_on_token path hroute
  have hfind : findToken path = none :=
    findSub_eq_none tokenPat path hno
  have hd : do_GET path = (200, .defect) := by
    simp [do_GET, hred, hroute, hfind]
  have hs : serverLoop (path :: rest) = (.defect, 1) := by
    simp [serverLoop, hd]
  refine ⟨by simp [hd], ?_, hs, by simp [SpotifyAPI.authorize, hs]⟩
  intro t
  simp [hd]

/-- Witness for C8: `/token?error=denied` has no `access_token=` match and
ends the loop as a defect. -/
theorem malformed_token_defect_witness :
    (do_GET "/token?error=denied".toList).2 = .defect ∧
    (∀ t, (do_GET "/token?error=denied".toList).2 ≠ .authRaise t) ∧
    serverLoop ["/token?error=denied".toList] = (.defect, 1) ∧
    SpotifyAPI.authorize ["/token?error=denied".toList] = none :=
  malformed_token_defect "/token?error=denied".toList [] (by decide) (by decide)

end SpotifyBackup
